import Mathlib

/-!
Shallow embedding of `color.go` (package `color`): an ANSI terminal
text-colorization library.  A `Paint` is a named color code (Go:
`type Paint string`), a `Style` is an immutable (background, foreground,
escape-code) triple, and a `Brush` wraps a string with the style's escape
code and a reset sequence.

Go's `computeColorCode` evaluates `bg[len(bg)-1]`, which panics (index out
of range) when `bg` is the empty string and not the `nil` sentinel; we model
that fallibility with `Option`: `none` is the Go runtime panic.
-/

namespace Color

/-- Go: `type Paint string`. -/
abbrev Paint := String

/-- Go: `pre = "\033["`. -/
def pre : String := "\x1b["

/-- Go: `post = ""`. -/
def post : String := ""

/-- Go: `reset = "\033[0m"`. -/
def reset : String := "\x1b[0m"

def BlackPaint : Paint := "0;30"
def DarkRedPaint : Paint := "0;31"
def DarkGreenPaint : Paint := "0;32"
def DarkYellowPaint : Paint := "0;33"
def DarkBluePaint : Paint := "0;34"
def DarkPurplePaint : Paint := "0;35"
def DarkCyanPaint : Paint := "0;36"
def LightGrayPaint : Paint := "0;37"

def DarkGrayPaint : Paint := "1;30"
def RedPaint : Paint := "1;31"
def GreenPaint : Paint := "1;32"
def YellowPaint : Paint := "1;33"
def BluePaint : Paint := "1;34"
def PurplePaint : Paint := "1;35"
def CyanPaint : Paint := "1;36"
def WhitePaint : Paint := "1;37"

def nilPaint : Paint := "nil"

/-- The 16 exported color constants, in source order. -/
def colorConstants : List Paint :=
  [BlackPaint, DarkRedPaint, DarkGreenPaint, DarkYellowPaint, DarkBluePaint,
   DarkPurplePaint, DarkCyanPaint, LightGrayPaint, DarkGrayPaint, RedPaint,
   GreenPaint, YellowPaint, BluePaint, PurplePaint, CyanPaint, WhitePaint]

/-- Backgrounds considered by the spec: the sentinel or a color constant. -/
def bgDomain : List Paint := nilPaint :: colorConstants

/-- Go: `type Brush func(string) string`. -/
abbrev Brush := String → String

/-- Go: `computeColorCode(bg, fg Paint) string`.  `bg[len(bg)-1]` reads the
last byte of `bg` and panics when `bg` is empty; all defined constants are
ASCII, so the last byte is the last character, and the panic is `none`. -/
def computeColorCode (bg fg : Paint) : Option String :=
  if bg = nilPaint then
    some (pre ++ fg ++ "m" ++ post)
  else
    match bg.data.getLast? with
    | none => none
    | some bgColor =>
      let back := pre ++ "4" ++ String.mk [bgColor] ++ "m" ++ post
      let front := pre ++ fg ++ "m" ++ post
      some (back ++ front)

/-- Go: `type Style struct { bg, fg Paint; code string }`. -/
structure Style where
  bg : Paint
  fg : Paint
  code : String
deriving DecidableEq

/-- Go: `NewStyle(background, foreground Paint) Style`. -/
def NewStyle (background foreground : Paint) : Option Style :=
  (computeColorCode background foreground).map fun c =>
    { bg := background, fg := foreground, code := c }

/-- Go: `func (s Style) Brush() Brush`. -/
def Style.Brush (s : Style) : Brush := fun text => s.code ++ text ++ reset

/-- Go: `NewBrush(background, foreground Paint) Brush`. -/
def NewBrush (background foreground : Paint) : Option Brush :=
  (NewStyle background foreground).map Style.Brush

/-- Go: `func (s Style) WithBackground(color Paint) Style`. -/
def Style.WithBackground (s : Style) (color : Paint) : Option Style :=
  (computeColorCode color s.fg).map fun c => { s with bg := color, code := c }

/-- Go: `func (s Style) WithForeground(color Paint) Style`. -/
def Style.WithForeground (s : Style) (color : Paint) : Option Style :=
  (computeColorCode s.bg color).map fun c => { s with fg := color, code := c }

/-- Go receiver semantics made explicit: `WithBackground` is called on a
by-value copy of the receiver; the body builds `newS` from that copy and
never touches the caller's value.  The pair is (caller's style after the
call, returned style). -/
def Style.withBackgroundTraced (s : Style) (color : Paint) : Style × Option Style :=
  let newS := { s with bg := color }
  (s, (computeColorCode newS.bg newS.fg).map fun c => { newS with code := c })

/-- Go receiver semantics made explicit for `WithForeground`; see
`Style.withBackgroundTraced`. -/
def Style.withForegroundTraced (s : Style) (color : Paint) : Style × Option Style :=
  let newS := { s with fg := color }
  (s, (computeColorCode newS.bg newS.fg).map fun c => { newS with code := c })

/-- Go: `func Black() Brush { return NewBrush(WhitePaint, BlackPaint) }`. -/
def Black : Option Brush := NewBrush WhitePaint BlackPaint

/-- Go: `func Red() Brush { return NewBrush(nilPaint, RedPaint) }`. -/
def Red : Option Brush := NewBrush nilPaint RedPaint

/-! Helper notions for stating the escape-sequence shape claims. -/

/-- A single SGR escape segment with parameter string `p`. -/
def escSeg (p : String) : String := "\x1b[" ++ p ++ "m"

/-- Parameter string of a well-formed segment: contains no ESC, no `m`
terminator and no `[`, so `escSeg p` is exactly one complete sequence. -/
def goodParams (p : String) : Bool :=
  p.data.all fun c => !(c == '\x1b' || c == 'm' || c == '[')

/-- Number of ESC bytes in a string: each escape sequence starts with
exactly one ESC, so this counts escape sequences of a well-formed code. -/
def countEsc (t : String) : Nat := t.data.countP fun c => c == '\x1b'

/-- Does the parameter string start with the background selector `4`? -/
def startsWith4 (p : String) : Bool := p.data.head? == some '4'

/-- The background segment's parameter: `4` followed by the last character
of the background's code string. -/
def bgParam (bg : Paint) : String :=
  "4" ++ (match bg.data.getLast? with
          | some c => String.mk [c]
          | none => "")

end Color

namespace Color

/-! General lemmas about the embedding. -/

theorem countEsc_append (a b : String) : countEsc (a ++ b) = countEsc a + countEsc b := by
  simp [countEsc, String.data_append, List.countP_append]

theorem countEsc_of_goodParams {p : String} (h : goodParams p = true) : countEsc p = 0 := by
  rw [countEsc, List.countP_eq_zero]
  intro a ha
  have h2 := List.all_eq_true.mp h a ha
  simp only [Bool.not_eq_true', Bool.or_eq_false_iff] at h2
  simp [h2.1.1]

theorem countEsc_escSeg {p : String} (h : goodParams p = true) :
    countEsc (escSeg p) = 1 := by
  have h1 : countEsc "\x1b[" = 1 := by decide
  have h2 : countEsc "m" = 0 := by decide
  simp [escSeg, countEsc_append, h1, h2, countEsc_of_goodParams h]

theorem data_ne_nil {s : String} (h : s ≠ "") : s.data ≠ [] := by
  intro hd
  exact h (String.ext (by simpa using hd))

theorem computeColorCode_nil (fg : Paint) :
    computeColorCode nilPaint fg = some (escSeg fg) := by
  simp [computeColorCode, escSeg, pre, post, String.append_empty]

theorem computeColorCode_some {bg : Paint} (fg : Paint) (h1 : bg ≠ nilPaint)
    {c : Char} (h2 : bg.data.getLast? = some c) :
    computeColorCode bg fg = some (escSeg (bgParam bg) ++ escSeg fg) := by
  simp [computeColorCode, h1, h2, bgParam, escSeg, pre, post,
        String.append_empty, String.append_assoc]
  rw [show ("\x1b[4" : String) = "\x1b[" ++ "4" from rfl, String.append_assoc]

theorem NewBrush_eq {bg fg : Paint} {code : String}
    (h : computeColorCode bg fg = some code) :
    NewBrush bg fg = some fun text => code ++ text ++ reset := by
  simp only [NewBrush, NewStyle, h, Option.map_some]
  rfl

/-! Decidable facts about the finite color table. -/

theorem fg_constants_shape :
    ∀ fg ∈ colorConstants, goodParams fg = true ∧ startsWith4 fg = false := by
  decide

theorem bg_constants_shape :
    ∀ bg ∈ colorConstants, bg ≠ nilPaint ∧ bg.data ≠ [] ∧
      goodParams (bgParam bg) = true ∧ startsWith4 (bgParam bg) = true := by
  decide

end Color

namespace Color

/-- C1: for every background in `bgDomain` (the sentinel or a color
constant), every foreground constant, and every string `s`, the brush
output is an escape code followed by `s` and the literal reset sequence;
the code is exactly one well-formed escape segment with no `4`-prefixed
background segment when the background is the sentinel, and exactly two
(the first `4`-prefixed) otherwise. -/
theorem brush_escape_shape :
    ∀ bg ∈ bgDomain, ∀ fg ∈ colorConstants, ∀ s : String,
    ∃ b, NewBrush bg fg = some b ∧ ∃ code,
      b s = code ++ s ++ reset ∧
      ((bg = nilPaint ∧ ∃ p, code = escSeg p ∧ goodParams p = true ∧
          startsWith4 p = false ∧ countEsc code = 1) ∨
       (bg ≠ nilPaint ∧ ∃ p q, code = escSeg p ++ escSeg q ∧
          goodParams p = true ∧ goodParams q = true ∧
          startsWith4 p = true ∧ countEsc code = 2)) := by
  intro bg hbg fg hfg s
  obtain ⟨hgp, hs4⟩ := fg_constants_shape fg hfg
  rcases List.mem_cons.mp hbg with hnil | hcc
  · subst hnil
    refine ⟨_, NewBrush_eq (computeColorCode_nil fg), ?_⟩
    exact ⟨escSeg fg, rfl,
      Or.inl ⟨rfl, fg, rfl, hgp, hs4, countEsc_escSeg hgp⟩⟩
  · obtain ⟨hne, hdata, hbgp, hbg4⟩ := bg_constants_shape bg hcc
    refine ⟨_, NewBrush_eq (computeColorCode_some fg hne
      (List.getLast?_eq_getLast _ hdata)), ?_⟩
    refine ⟨escSeg (bgParam bg) ++ escSeg fg, rfl,
      Or.inr ⟨hne, bgParam bg, fg, rfl, hbgp, hgp, hbg4, ?_⟩⟩
    rw [countEsc_append, countEsc_escSeg hbgp, countEsc_escSeg hgp]

/-- Witness for C1 at background `nilPaint`, foreground `RedPaint`,
input `"hi"`. -/
theorem brush_escape_shape_witness :
    ∃ b, NewBrush nilPaint RedPaint = some b ∧ ∃ code,
      b "hi" = code ++ "hi" ++ reset ∧
      ((nilPaint = nilPaint ∧ ∃ p, code = escSeg p ∧ goodParams p = true ∧
          startsWith4 p = false ∧ countEsc code = 1) ∨
       (nilPaint ≠ nilPaint ∧ ∃ p q, code = escSeg p ++ escSeg q ∧
          goodParams p = true ∧ goodParams q = true ∧
          startsWith4 p = true ∧ countEsc code = 2)) :=
  brush_escape_shape nilPaint (by decide) RedPaint (by decide) "hi"

/-- C2: for every non-sentinel constant background and arbitrary
foreground, the code is the background segment `ESC[4<hue>m` — `<hue>` the
last character of the background's code string — followed immediately by
the foreground segment `ESC[<fg>m`. -/
theorem bg_segment_structure :
    ∀ bg ∈ colorConstants, ∀ fg : Paint, ∃ hue : Char,
      bg.data.getLast? = some hue ∧
      computeColorCode bg fg =
        some (escSeg ("4" ++ String.mk [hue]) ++ escSeg fg) := by
  intro bg hbg fg
  obtain ⟨hne, hdata, -, -⟩ := bg_constants_shape bg hbg
  refine ⟨bg.data.getLast hdata, List.getLast?_eq_getLast _ hdata, ?_⟩
  rw [computeColorCode_some fg hne (List.getLast?_eq_getLast _ hdata)]
  congr 2
  simp [bgParam, List.getLast?_eq_getLast _ hdata]

/-- Witness for C2 at background `WhitePaint`, foreground `BlackPaint`. -/
theorem bg_segment_structure_witness :
    ∃ hue : Char, WhitePaint.data.getLast? = some hue ∧
      computeColorCode WhitePaint BlackPaint =
        some (escSeg ("4" ++ String.mk [hue]) ++ escSeg BlackPaint) :=
  bg_segment_structure WhitePaint (by decide) BlackPaint

end Color

namespace Color

theorem computeColorCode_isSome (bg fg : Paint) (h : bg = nilPaint ∨ bg ≠ "") :
    (computeColorCode bg fg).isSome := by
  by_cases hnil : bg = nilPaint
  · subst hnil
    simp [computeColorCode_nil]
  · have hne : bg ≠ "" := by
      rcases h with h | h
      · exact absurd h hnil
      · exact h
    rw [computeColorCode_some fg hnil (List.getLast?_eq_getLast _ (data_ne_nil hne))]
    rfl

/-- C3 counterexample: the claim quantifies over arbitrary `Paint` strings,
but with the empty (non-sentinel) background the Go code indexes
`bg[len(bg)-1]` out of bounds — a runtime panic, `none` in the embedding. -/
theorem totality_counterexample :
    computeColorCode "" BlackPaint = none ∧ NewStyle "" BlackPaint = none ∧
    NewBrush "" BlackPaint = none := by
  have h : computeColorCode "" BlackPaint = none := by decide
  exact ⟨h, by simp [NewStyle, h], by simp [NewBrush, NewStyle, h]⟩

/-- C3 (amended): every public operation is total whenever the background
reaching `computeColorCode` is the sentinel or a non-empty string — in
particular on every defined color constant; `Brush` and brush application
are unconditionally total.  Only an empty non-sentinel background faults. -/
theorem operations_total :
    ∀ (bg fg : Paint) (st : Style) (c : Paint),
      (bg = nilPaint ∨ bg ≠ "" → (computeColorCode bg fg).isSome ∧
        (NewStyle bg fg).isSome ∧ (NewBrush bg fg).isSome) ∧
      (c = nilPaint ∨ c ≠ "" → (st.WithBackground c).isSome) ∧
      (st.bg = nilPaint ∨ st.bg ≠ "" → (st.WithForeground c).isSome) ∧
      (∀ text, st.Brush text = st.code ++ text ++ reset) := by
  intro bg fg st c
  refine ⟨fun h => ?_, fun h => ?_, fun h => ?_, fun text => rfl⟩
  · have h1 := computeColorCode_isSome bg fg h
    obtain ⟨code, hcode⟩ := Option.isSome_iff_exists.mp h1
    exact ⟨h1, by simp [NewStyle, hcode], by simp [NewBrush, NewStyle, hcode]⟩
  · obtain ⟨code, hcode⟩ := Option.isSome_iff_exists.mp (computeColorCode_isSome c st.fg h)
    simp [Style.WithBackground, hcode]
  · obtain ⟨code, hcode⟩ := Option.isSome_iff_exists.mp (computeColorCode_isSome st.bg c h)
    simp [Style.WithForeground, hcode]

/-- Witness for C3 (amended) at concrete paints and a concrete style. -/
theorem operations_total_witness :
    ((computeColorCode WhitePaint BlackPaint).isSome ∧
     (NewStyle WhitePaint BlackPaint).isSome ∧
     (NewBrush WhitePaint BlackPaint).isSome) ∧
    ((Style.mk nilPaint RedPaint "\x1b[1;31m").WithBackground BluePaint).isSome ∧
    ((Style.mk nilPaint RedPaint "\x1b[1;31m").WithForeground BluePaint).isSome ∧
    (Style.mk nilPaint RedPaint "\x1b[1;31m").Brush "x" =
      (Style.mk nilPaint RedPaint "\x1b[1;31m").code ++ "x" ++ reset := by
  obtain ⟨h1, h2, h3, h4⟩ :=
    operations_total WhitePaint BlackPaint (Style.mk nilPaint RedPaint "\x1b[1;31m") BluePaint
  exact ⟨h1 (Or.inr (by decide)), h2 (Or.inr (by decide)), h3 (Or.inl (by decide)), h4 "x"⟩

/-- The eight hue codes `30`–`37`. -/
def hueCodes : List String := ["30", "31", "32", "33", "34", "35", "36", "37"]

/-- C4 counterexample: the foreground code of `BlackPaint` under the
sentinel background is `0;30` — intensity `0`, `;`, hue `30` — a
four-character string, not a two-character one. -/
theorem fg_code_length_counterexample :
    computeColorCode nilPaint BlackPaint = some ("\x1b[" ++ "0;30" ++ "m") ∧
    BlackPaint = "0" ++ ";" ++ "30" ∧
    BlackPaint.length ≠ 2 ∧ BlackPaint.length = 4 := by
  decide

/-- C4 (amended): for every constant foreground under the sentinel
background the code is `ESC[` + foreground-code + `m`, where the
foreground-code is the four-character string intensity (`0` or `1`), `;`,
then a hue `30`–`37`. -/
theorem nil_bg_code_shape :
    ∀ fg ∈ colorConstants,
      (∃ i ∈ (["0", "1"] : List String), ∃ hu ∈ hueCodes, fg = i ++ ";" ++ hu) ∧
      fg.length = 4 ∧
      computeColorCode nilPaint fg = some ("\x1b[" ++ fg ++ "m") := by
  decide

/-- Witness for C4 (amended) at foreground `RedPaint`. -/
theorem nil_bg_code_shape_witness :
    (∃ i ∈ (["0", "1"] : List String), ∃ hu ∈ hueCodes, RedPaint = i ++ ";" ++ hu) ∧
    RedPaint.length = 4 ∧
    computeColorCode nilPaint RedPaint = some ("\x1b[" ++ RedPaint ++ "m") :=
  nil_bg_code_shape RedPaint (by decide)

/-- C5: every Style produced by `NewStyle`, `WithBackground` or
`WithForeground` stores exactly `computeColorCode` of its own
(background, foreground) pair: the code is recomputed on every change. -/
theorem code_invariant :
    ∀ (bg fg : Paint) (s st : Style) (c : Paint),
      (NewStyle bg fg = some st → computeColorCode st.bg st.fg = some st.code) ∧
      (s.WithBackground c = some st → computeColorCode st.bg st.fg = some st.code) ∧
      (s.WithForeground c = some st → computeColorCode st.bg st.fg = some st.code) := by
  intro bg fg s st c
  refine ⟨fun h => ?_, fun h => ?_, fun h => ?_⟩
  · rw [NewStyle] at h
    cases hc : computeColorCode bg fg with
    | none => rw [hc] at h; simp at h
    | some code =>
      rw [hc] at h
      simp only [Option.map_some', Option.some_inj] at h
      rw [← h]
      exact hc
  · rw [Style.WithBackground] at h
    cases hc : computeColorCode c s.fg with
    | none => rw [hc] at h; simp at h
    | some code =>
      rw [hc] at h
      simp only [Option.map_some', Option.some_inj] at h
      rw [← h]
      exact hc
  · rw [Style.WithForeground] at h
    cases hc : computeColorCode s.bg c with
    | none => rw [hc] at h; simp at h
    | some code =>
      rw [hc] at h
      simp only [Option.map_some', Option.some_inj] at h
      rw [← h]
      exact hc

/-- Witness for C5: the style built by `NewStyle nilPaint RedPaint`
satisfies the stored-code invariant. -/
theorem code_invariant_witness :
    computeColorCode (Style.mk nilPaint RedPaint "\x1b[1;31m").bg
        (Style.mk nilPaint RedPaint "\x1b[1;31m").fg =
      some (Style.mk nilPaint RedPaint "\x1b[1;31m").code :=
  (code_invariant nilPaint RedPaint (Style.mk nilPaint RedPaint "\x1b[1;31m")
      (Style.mk nilPaint RedPaint "\x1b[1;31m") nilPaint).1 (by decide)

end Color

namespace Color

/-- C6: Go passes the receiver by value, so after `WithForeground` or
`WithBackground` the caller's Style keeps its background, foreground and
escape code unchanged (the traced first component is the caller's value
after the call); only the returned Style carries the replacement, keeping
the untouched field of the original. -/
theorem with_updates_frame :
    ∀ (s : Style) (c : Paint),
      (s.withForegroundTraced c).1.bg = s.bg ∧
      (s.withForegroundTraced c).1.fg = s.fg ∧
      (s.withForegroundTraced c).1.code = s.code ∧
      (s.withBackgroundTraced c).1.bg = s.bg ∧
      (s.withBackgroundTraced c).1.fg = s.fg ∧
      (s.withBackgroundTraced c).1.code = s.code ∧
      (s.withForegroundTraced c).2 = s.WithForeground c ∧
      (s.withBackgroundTraced c).2 = s.WithBackground c ∧
      s.WithForeground c =
        (computeColorCode s.bg c).map (fun code => Style.mk s.bg c code) ∧
      s.WithBackground c =
        (computeColorCode c s.fg).map (fun code => Style.mk c s.fg code) := by
  intro s c
  exact ⟨rfl, rfl, rfl, rfl, rfl, rfl, rfl, rfl, rfl, rfl⟩

/-- C7: a second `WithForeground` fully overrides the first: the chained
result's code equals the code of `NewStyle` at the original background and
the last foreground. -/
theorem with_fg_override :
    ∀ (s : Style) (x y : Paint) (s2 : Style),
      ((s.WithForeground x).bind fun s1 => s1.WithForeground y) = some s2 →
      ∃ s3, NewStyle s.bg y = some s3 ∧ s2.code = s3.code := by
  intro s x y s2 h
  cases hx : computeColorCode s.bg x with
  | none => simp [Style.WithForeground, hx] at h
  | some cx =>
    cases hy : computeColorCode s.bg y with
    | none => simp [Style.WithForeground, hx, hy] at h
    | some cy =>
      simp only [Style.WithForeground, hx, hy, Option.map_some',
        Option.some_bind, Option.some_inj] at h
      exact ⟨Style.mk s.bg y cy, by simp [NewStyle, hy], by rw [← h]⟩

/-- Witness for C7 at a concrete style and paints. -/
theorem with_fg_override_witness :
    ∃ s3, NewStyle (Style.mk nilPaint BlackPaint "\x1b[0;30m").bg GreenPaint = some s3 ∧
      (Style.mk nilPaint GreenPaint "\x1b[1;32m").code = s3.code :=
  with_fg_override (Style.mk nilPaint BlackPaint "\x1b[0;30m") RedPaint GreenPaint
    (Style.mk nilPaint GreenPaint "\x1b[1;32m") (by decide)

/-- C8: the brush for the sentinel background and bright-red foreground
maps `"red"` to exactly `"\x1b[1;31mred\x1b[0m"`. -/
theorem red_brush_example :
    ∃ b, NewBrush nilPaint RedPaint = some b ∧ b "red" = "\x1b[1;31mred\x1b[0m" := by
  have h : computeColorCode nilPaint RedPaint = some "\x1b[1;31m" := by decide
  exact ⟨_, NewBrush_eq h, by decide⟩

/-- C9: `Black` is black foreground on bright-white background, and its
brush maps `"x"` to exactly `"\x1b[47m\x1b[0;30mx\x1b[0m"`. -/
theorem black_brush_example :
    Black = NewBrush WhitePaint BlackPaint ∧
    ∃ b, Black = some b ∧ b "x" = "\x1b[47m\x1b[0;30mx\x1b[0m" := by
  have h : computeColorCode WhitePaint BlackPaint = some "\x1b[47m\x1b[0;30m" := by decide
  exact ⟨rfl, _, NewBrush_eq h, by decide⟩

/-- C10: the escape code ignores the background's intensity component: two
non-sentinel backgrounds whose code strings end in the same character give
identical codes for every foreground. -/
theorem bg_intensity_ignored :
    ∀ (bg1 bg2 fg : Paint), bg1 ≠ nilPaint → bg2 ≠ nilPaint →
      bg1.data.getLast? = bg2.data.getLast? →
      computeColorCode bg1 fg = computeColorCode bg2 fg := by
  intro bg1 bg2 fg h1 h2 hlast
  rw [computeColorCode, computeColorCode, if_neg h1, if_neg h2, hlast]

/-- Witness for C10: bright white and light gray backgrounds (codes `1;37`
and `0;37`) give the same escape code over a black foreground. -/
theorem bg_intensity_ignored_witness :
    computeColorCode WhitePaint BlackPaint = computeColorCode LightGrayPaint BlackPaint :=
  bg_intensity_ignored WhitePaint LightGrayPaint BlackPaint (by decide) (by decide) (by decide)

end Color
